import Mathlib

/-!
# AWS Config aggregation authorization resource

A shallow embedding of `aws/resource_aws_config_authorization.go`: the identifier
parser, and the Create (Put), Read and Delete callbacks of the resource, with the
Config Service connection passed in explicitly and every remote call recorded.

Go strings are embedded as `String`; a Go `error` is embedded as its message.
-/

namespace AwsConfigAuthorization

/-! ## Strings -/

/-- Body of `strings.Split` for a one-character separator: `cur` holds, in reverse, the
characters of the piece being scanned; a separator closes the piece and the end of the
input closes the last one. -/
def splitLoop (sep : Char) : List Char → List Char → List (List Char)
  | cur, [] => [cur.reverse]
  | cur, c :: cs =>
    if c = sep then cur.reverse :: splitLoop sep [] cs
    else splitLoop sep (c :: cur) cs

/-- Go's `strings.Split(s, sep)` for a one-character separator: the substrings of `s`
between the separators, in order (one more than the number of separators). -/
def stringsSplit (s : String) (sep : Char) : List String :=
  (splitLoop sep [] s.data).map String.mk

/-- Number of colons in a string. -/
def colons (s : String) : Nat := s.data.count ':'

/-! ## Identifier parsing -/

/-- Message of the error built at line 118 of the source. -/
def malformedIDError : String :=
  "Please make sure the ID is in the form account_id:region (i.e. 123456789012:us-east-1"

/-- Go's `resourceAwsConfigAuthorizationParseID`: the triple `(accountId, region, err)`. -/
def resourceAwsConfigAuthorizationParseID (id : String) : String × String × Option String :=
  let idParts := stringsSplit id ':'
  if idParts.length ≠ 2 then
    ("", "", some malformedIDError)
  else
    let accountId := idParts.getD 0 ""
    let region := idParts.getD 1 ""
    (accountId, region, none)

/-- Go's `fmt.Sprintf("%s:%s", accountId, region)` of line 60. -/
def formatID (accountId region : String) : String :=
  accountId ++ ":" ++ region

/-! ## Resource data and the remote service -/

/-- The part of `schema.ResourceData` the resource uses: the identifier and the three
schema attributes. -/
structure ResourceData where
  Id : String
  arn : String
  account_id : String
  region : String
deriving DecidableEq, Repr

/-- The SDK's `configservice.AggregationAuthorization`: three `*string` fields, `none`
being the nil pointer. -/
structure AggregationAuthorization where
  AggregationAuthorizationArn : Option String
  AuthorizedAccountId : Option String
  AuthorizedAwsRegion : Option String
deriving DecidableEq, Repr

/-- A remote call issued through the connection. -/
inductive Call where
  | put (accountId region : String)
  | describe
  | delete (accountId region : String)
deriving DecidableEq, Repr

/-- The Config Service connection over a remote state `σ`: each call answers and moves the
remote state. A failed call answers with the message of its error. -/
structure Conn (σ : Type) where
  PutAggregationAuthorization : σ → String → String → Option String × σ
  DescribeAggregationAuthorizations : σ → Except String (List AggregationAuthorization) × σ
  DeleteAggregationAuthorization : σ → String → String → Option String × σ

/-- How a callback ends: it returns nil, returns an error, or dereferences a nil pointer. -/
inductive Return where
  | ok
  | error (msg : String)
  | panic
deriving DecidableEq, Repr

/-- What a callback leaves behind: how it ended, the resource data, the remote state and the
remote calls it issued, in order. -/
structure Outcome (σ : Type) where
  ret : Return
  d : ResourceData
  remote : σ
  calls : List Call

/-- Result of the scan of lines 81-86. -/
inductive Scan where
  | found (arn : Option String)
  | notFound
  | panic
deriving DecidableEq, Repr

/-- The loop of lines 81-86: the first entry whose account id and region both equal the
given ones. `&&` short-circuits, so the region pointer is dereferenced only after the
account id matched. -/
def findAuthorization (accountId region : String) : List AggregationAuthorization → Scan
  | [] => .notFound
  | auth :: rest =>
    match auth.AuthorizedAccountId with
    | none => .panic
    | some a =>
      if accountId = a then
        match auth.AuthorizedAwsRegion with
        | none => .panic
        | some r =>
          if region = r then .found auth.AggregationAuthorizationArn
          else findAuthorization accountId region rest
      else findAuthorization accountId region rest

/-! ## The callbacks -/

/-- Go's `resourceAwsConfigAuthorizationRead`. `d.Set("arn", p)` with a nil `p` leaves the
attribute empty. -/
def resourceAwsConfigAuthorizationRead {σ : Type} (conn : Conn σ) (d : ResourceData) (s : σ) :
    Outcome σ :=
  match resourceAwsConfigAuthorizationParseID d.Id with
  | (_, _, some err) => ⟨.error err, d, s, []⟩
  | (accountId, region, none) =>
    let d := { d with account_id := accountId }
    let d := { d with region := region }
    match conn.DescribeAggregationAuthorizations s with
    | (.error err, s) =>
      ⟨.error ("Error retrieving list of authorizations: " ++ err), d, s, [.describe]⟩
    | (.ok res, s) =>
      match findAuthorization accountId region res with
      | .found arn => ⟨.ok, { d with arn := arn.getD "" }, s, [.describe]⟩
      | .panic => ⟨.panic, d, s, [.describe]⟩
      | .notFound => ⟨.ok, { d with Id := "" }, s, [.describe]⟩

/-- Go's `resourceAwsConfigAuthorizationPut`, the Create callback. -/
def resourceAwsConfigAuthorizationPut {σ : Type} (conn : Conn σ) (d : ResourceData) (s : σ) :
    Outcome σ :=
  let accountId := d.account_id
  let region := d.region
  match conn.PutAggregationAuthorization s accountId region with
  | (some err, s) =>
    ⟨.error ("Error creating authorization: " ++ err), d, s, [.put accountId region]⟩
  | (none, s) =>
    let d := { d with Id := formatID accountId region }
    let o := resourceAwsConfigAuthorizationRead conn d s
    { o with calls := .put accountId region :: o.calls }

/-- Go's `resourceAwsConfigAuthorizationDelete`. -/
def resourceAwsConfigAuthorizationDelete {σ : Type} (conn : Conn σ) (d : ResourceData) (s : σ) :
    Outcome σ :=
  match resourceAwsConfigAuthorizationParseID d.Id with
  | (_, _, some err) => ⟨.error err, d, s, []⟩
  | (accountId, region, none) =>
    match conn.DeleteAggregationAuthorization s accountId region with
    | (some err, s) =>
      ⟨.error ("Error deleting authorization: " ++ err), d, s, [.delete accountId region]⟩
    | (none, s) => ⟨.ok, { d with Id := "" }, s, [.delete accountId region]⟩

/-! ## Vocabulary of the properties -/

/-- The entry is the authorization of `(accountId, region)`: its account id and its region
both equal the given ones. -/
def Matches (accountId region : String) (auth : AggregationAuthorization) : Prop :=
  auth.AuthorizedAccountId = some accountId ∧ auth.AuthorizedAwsRegion = some region

instance (accountId region : String) (auth : AggregationAuthorization) :
    Decidable (Matches accountId region auth) := by
  unfold Matches; infer_instance

/-- The condition of line 82 can be evaluated on the entry without dereferencing a nil
pointer: its account id is not nil, and its region is not nil when its account id equals
`accountId` (the only case in which the region is looked at). -/
def NilSafe (accountId : String) (auth : AggregationAuthorization) : Prop :=
  auth.AuthorizedAccountId ≠ none ∧
    (auth.AuthorizedAccountId = some accountId → auth.AuthorizedAwsRegion ≠ none)

instance (accountId : String) (auth : AggregationAuthorization) :
    Decidable (NilSafe accountId auth) := by
  unfold NilSafe; infer_instance

/-- The entries that precede the first entry matching `(accountId, region)`: all of them
when none matches. -/
def beforeFirstMatch (accountId region : String) (l : List AggregationAuthorization) :
    List AggregationAuthorization :=
  l.takeWhile (fun auth => !decide (Matches accountId region auth))

/-- An in-memory remote service: the state is the list of authorizations; put records the
authorization (once), describe lists them, delete removes it. -/
def memConn : Conn (List AggregationAuthorization) where
  PutAggregationAuthorization := fun s accountId region =>
    if s.any (fun auth => decide (Matches accountId region auth)) then (none, s)
    else (none, s ++ [⟨some ("arn:aws:config:" ++ region ++ ":" ++ accountId), some accountId,
      some region⟩])
  DescribeAggregationAuthorizations := fun s => (.ok s, s)
  DeleteAggregationAuthorization := fun s accountId region =>
    (none, s.filter (fun auth => !decide (Matches accountId region auth)))

/-- A remote service whose list does not show the authorization that was put (a stale
listing, or a first page without it): put and delete succeed, describe answers the empty
list. -/
def staleConn : Conn Unit where
  PutAggregationAuthorization := fun s _ _ => (none, s)
  DescribeAggregationAuthorizations := fun s => (.ok [], s)
  DeleteAggregationAuthorization := fun s _ _ => (none, s)

/-- A remote service that is down: every call fails with the message `msg`. -/
def downConn (msg : String) : Conn Unit where
  PutAggregationAuthorization := fun s _ _ => (some msg, s)
  DescribeAggregationAuthorizations := fun s => (.error msg, s)
  DeleteAggregationAuthorization := fun s _ _ => (some msg, s)

/-- A listing with a foreign entry followed by two entries for
`("123456789012", "us-east-1")`. -/
def sampleListing : List AggregationAuthorization :=
  [⟨some "arn:other", some "999999999999", some "us-east-1"⟩,
   ⟨some "arn:first", some "123456789012", some "us-east-1"⟩,
   ⟨some "arn:second", some "123456789012", some "us-east-1"⟩]

/-- A listing with nil pointers where the scan does not look: a foreign entry without a
region before the entry for `("123456789012", "us-east-1")`, which has no ARN, and an empty
entry after it. -/
def sparseListing : List AggregationAuthorization :=
  [⟨some "arn:other", some "999999999999", none⟩,
   ⟨none, some "123456789012", some "us-east-1"⟩,
   ⟨none, none, none⟩]

/-- A listing whose first entry has a nil account id, before the entry for
`("123456789012", "us-east-1")`. -/
def nilFirstListing : List AggregationAuthorization :=
  [⟨some "arn:x", none, some "us-east-1"⟩,
   ⟨some "arn:first", some "123456789012", some "us-east-1"⟩]

/-- A listing without an entry for `("123456789012", "us-east-1")`, whose only entry has a
nil account id. -/
def nilOnlyListing : List AggregationAuthorization :=
  [⟨some "arn:x", none, some "us-east-1"⟩]

/-- Resource data of an authorization that was imported by its identifier. -/
def sampleData : ResourceData :=
  ⟨"123456789012:us-east-1", "", "", ""⟩

/-- Resource data of a planned authorization: attributes from the configuration, no
identifier yet. -/
def plannedData (accountId region : String) : ResourceData :=
  ⟨"", "", accountId, region⟩

/-! ## Lemmas on splitting -/

theorem splitLoop_length (sep : Char) (s : List Char) :
    ∀ cur, (splitLoop sep cur s).length = s.count sep + 1 := by
  induction s with
  | nil => intro cur; simp [splitLoop]
  | cons c cs ih =>
    intro cur
    by_cases h : c = sep
    · subst h; simp [splitLoop, ih]
    · have h2 : ¬ (c == sep) = true := by simpa using h
      simp [splitLoop, h, ih, List.count_cons, h2]

theorem splitLoop_noSep (sep : Char) (s : List Char) (hs : sep ∉ s) :
    ∀ cur, splitLoop sep cur s = [cur.reverse ++ s] := by
  induction s with
  | nil => intro cur; simp [splitLoop]
  | cons c cs ih =>
    intro cur
    have hc : c ≠ sep := fun h => hs (by simp [h])
    have hcs : sep ∉ cs := fun h => hs (by simp [h])
    simp [splitLoop, hc, ih hcs]

theorem splitLoop_append (sep : Char) (a r : List Char) (ha : sep ∉ a) :
    ∀ cur, splitLoop sep cur (a ++ sep :: r) = (cur.reverse ++ a) :: splitLoop sep [] r := by
  induction a with
  | nil => intro cur; simp [splitLoop]
  | cons c cs ih =>
    intro cur
    have hc : c ≠ sep := fun h => ha (by simp [h])
    have hcs : sep ∉ cs := fun h => ha (by simp [h])
    simp [splitLoop, hc, ih hcs]

theorem exists_first_sep (sep : Char) (s : List Char) (h : sep ∈ s) :
    ∃ a r, s = a ++ sep :: r ∧ sep ∉ a := by
  induction s with
  | nil => simp at h
  | cons c cs ih =>
    by_cases hc : c = sep
    · exact ⟨[], cs, by simp [hc], by simp⟩
    · have hcs : sep ∈ cs := by
        rcases List.mem_cons.mp h with h1 | h1
        · exact absurd h1.symm hc
        · exact h1
      obtain ⟨a, r, hs, ha⟩ := ih hcs
      refine ⟨c :: a, r, by simp [hs], ?_⟩
      intro hmem
      rcases List.mem_cons.mp hmem with h1 | h1
      · exact hc h1.symm
      · exact ha h1

theorem stringsSplit_length (s : String) (sep : Char) :
    (stringsSplit s sep).length = s.data.count sep + 1 := by
  simp [stringsSplit, splitLoop_length]

theorem formatID_data (a r : String) : (formatID a r).data = a.data ++ ':' :: r.data := by
  simp [formatID, String.data_append]

theorem colons_formatID (a r : String) : colons (formatID a r) = colons a + colons r + 1 := by
  simp [colons, formatID_data, List.count_append, List.count_cons]
  omega

theorem stringsSplit_formatID (a r : String) (ha : ':' ∉ a.data) (hr : ':' ∉ r.data) :
    stringsSplit (formatID a r) ':' = [a, r] := by
  simp [stringsSplit, formatID_data, splitLoop_append _ _ _ ha, splitLoop_noSep _ _ hr]

theorem parseID_formatID (a r : String) (ha : ':' ∉ a.data) (hr : ':' ∉ r.data) :
    resourceAwsConfigAuthorizationParseID (formatID a r) = (a, r, none) := by
  simp [resourceAwsConfigAuthorizationParseID, stringsSplit_formatID a r ha hr]

theorem parseID_malformed (id : String) (h : colons id ≠ 1) :
    resourceAwsConfigAuthorizationParseID id = ("", "", some malformedIDError) := by
  have hlen : (stringsSplit id ':').length ≠ 2 := by
    rw [stringsSplit_length]; unfold colons at h; omega
  simp [resourceAwsConfigAuthorizationParseID, hlen]

theorem exists_parts_of_one_colon (id : String) (h : colons id = 1) :
    ∃ a r : String, id = formatID a r ∧ ':' ∉ a.data ∧ ':' ∉ r.data := by
  have hmem : ':' ∈ id.data := by
    unfold colons at h
    exact List.count_pos_iff.mp (by omega)
  obtain ⟨a, r, hs, ha⟩ := exists_first_sep ':' id.data hmem
  have hr : ':' ∉ r := by
    have hc : (a ++ ':' :: r).count ':' = 1 := by rw [← hs]; exact h
    have ha0 : a.count ':' = 0 := List.count_eq_zero.mpr ha
    simp [List.count_append, List.count_cons, ha0] at hc
    exact List.count_eq_zero.mp hc
  refine ⟨⟨a⟩, ⟨r⟩, ?_, ha, hr⟩
  apply String.ext
  rw [formatID_data]
  exact hs

theorem parseID_ok_iff (id a r : String) :
    resourceAwsConfigAuthorizationParseID id = (a, r, none) ↔
      id = formatID a r ∧ ':' ∉ a.data ∧ ':' ∉ r.data := by
  constructor
  · intro h
    by_cases hc : colons id = 1
    · obtain ⟨a1, r1, hid, ha1, hr1⟩ := exists_parts_of_one_colon id hc
      rw [hid, parseID_formatID a1 r1 ha1 hr1] at h
      simp only [Prod.mk.injEq, and_true] at h
      obtain ⟨h1, h2⟩ := h
      subst h1; subst h2
      exact ⟨hid, ha1, hr1⟩
    · rw [parseID_malformed id hc] at h
      simp at h
  · rintro ⟨hid, ha, hr⟩
    rw [hid]
    exact parseID_formatID a r ha hr

/-! ## Lemmas on the scan and the callbacks -/

theorem findAuthorization_found (a r : String) (l : List AggregationAuthorization)
    (hsafe : ∀ x ∈ beforeFirstMatch a r l, NilSafe a x) (e : AggregationAuthorization)
    (hfind : l.find? (fun x => decide (Matches a r x)) = some e) :
    findAuthorization a r l = .found e.AggregationAuthorizationArn := by
  induction l with
  | nil => simp at hfind
  | cons x xs ih =>
    by_cases hm : Matches a r x
    · have hex : x = e := by simpa [List.find?, hm] using hfind
      subst hex
      obtain ⟨h1, h2⟩ := hm
      simp [findAuthorization, h1, h2]
    · have htw : beforeFirstMatch a r (x :: xs) = x :: beforeFirstMatch a r xs := by
        simp [beforeFirstMatch, List.takeWhile, hm]
      rw [htw] at hsafe
      have hx := hsafe x (by simp)
      have hxs : ∀ y ∈ beforeFirstMatch a r xs, NilSafe a y :=
        fun y hy => hsafe y (by simp [hy])
      have hfind2 : xs.find? (fun x => decide (Matches a r x)) = some e := by
        simpa [List.find?, hm] using hfind
      have hrec := ih hxs hfind2
      obtain ⟨arn, acc, reg⟩ := x
      obtain ⟨hacc, hreg⟩ := hx
      cases acc with
      | none => exact absurd rfl hacc
      | some acc =>
        by_cases h1 : a = acc
        · subst h1
          cases reg with
          | none => exact absurd rfl (hreg rfl)
          | some reg =>
            have h2 : ¬ r = reg := fun h => hm ⟨rfl, by rw [h]⟩
            simp [findAuthorization, h2, hrec]
        · simp [findAuthorization, h1, hrec]

theorem findAuthorization_notFound (a r : String) (l : List AggregationAuthorization)
    (hsafe : ∀ x ∈ l, NilSafe a x) (hno : ∀ x ∈ l, ¬ Matches a r x) :
    findAuthorization a r l = .notFound := by
  induction l with
  | nil => rfl
  | cons x xs ih =>
    have hx := hsafe x (by simp)
    have hm := hno x (by simp)
    have hrec := ih (fun y hy => hsafe y (by simp [hy])) (fun y hy => hno y (by simp [hy]))
    obtain ⟨arn, acc, reg⟩ := x
    obtain ⟨hacc, hreg⟩ := hx
    cases acc with
    | none => exact absurd rfl hacc
    | some acc =>
      by_cases h1 : a = acc
      · subst h1
        cases reg with
        | none => exact absurd rfl (hreg rfl)
        | some reg =>
          have h2 : ¬ r = reg := fun h => hm ⟨rfl, by rw [h]⟩
          simp [findAuthorization, h2, hrec]
      · simp [findAuthorization, h1, hrec]

theorem findAuthorization_notFound_noMatch (a r : String) (l : List AggregationAuthorization)
    (h : findAuthorization a r l = .notFound) : ∀ x ∈ l, ¬ Matches a r x := by
  induction l with
  | nil => intro x hx; simp at hx
  | cons y ys ih =>
    obtain ⟨arn, acc, reg⟩ := y
    cases acc with
    | none => simp [findAuthorization] at h
    | some acc =>
      by_cases h1 : a = acc
      · subst h1
        cases reg with
        | none => simp [findAuthorization] at h
        | some reg =>
          by_cases h2 : r = reg
          · simp [findAuthorization, h2] at h
          · simp only [findAuthorization, h2, if_true, if_false] at h
            intro x hx
            rcases List.mem_cons.mp hx with hx | hx
            · subst hx
              intro hmx
              exact h2 (Option.some.inj hmx.2).symm
            · exact ih h x hx
      · simp only [findAuthorization, h1, if_false] at h
        intro x hx
        rcases List.mem_cons.mp hx with hx | hx
        · subst hx
          intro hmx
          exact h1 (Option.some.inj hmx.1).symm
        · exact ih h x hx

theorem findAuthorization_notFound_nilSafe (a r : String) (l : List AggregationAuthorization)
    (h : findAuthorization a r l = .notFound) : ∀ x ∈ l, NilSafe a x := by
  induction l with
  | nil => intro x hx; simp at hx
  | cons y ys ih =>
    obtain ⟨arn, acc, reg⟩ := y
    cases acc with
    | none => simp [findAuthorization] at h
    | some acc =>
      by_cases h1 : a = acc
      · subst h1
        cases reg with
        | none => simp [findAuthorization] at h
        | some reg =>
          by_cases h2 : r = reg
          · simp [findAuthorization, h2] at h
          · simp only [findAuthorization, h2, if_true, if_false] at h
            intro x hx
            rcases List.mem_cons.mp hx with hx | hx
            · subst hx; simp [NilSafe]
            · exact ih h x hx
      · simp only [findAuthorization, h1, if_false] at h
        intro x hx
        rcases List.mem_cons.mp hx with hx | hx
        · subst hx
          refine ⟨by simp, ?_⟩
          intro hacc
          exact absurd (Option.some.inj hacc).symm h1
        · exact ih h x hx

theorem findAuthorization_found_nilSafe (a r : String) (l : List AggregationAuthorization)
    (arn : Option String) (h : findAuthorization a r l = .found arn) :
    ∀ x ∈ beforeFirstMatch a r l, NilSafe a x := by
  induction l with
  | nil => intro x hx; simp [beforeFirstMatch] at hx
  | cons y ys ih =>
    by_cases hm : Matches a r y
    · intro x hx
      simp [beforeFirstMatch, List.takeWhile, hm] at hx
    · have htw : beforeFirstMatch a r (y :: ys) = y :: beforeFirstMatch a r ys := by
        simp [beforeFirstMatch, List.takeWhile, hm]
      rw [htw]
      obtain ⟨yarn, acc, reg⟩ := y
      cases acc with
      | none => simp [findAuthorization] at h
      | some acc =>
        by_cases h1 : a = acc
        · subst h1
          cases reg with
          | none => simp [findAuthorization] at h
          | some reg =>
            have h2 : ¬ r = reg := fun h => hm ⟨rfl, by rw [h]⟩
            simp only [findAuthorization, h2, if_true, if_false] at h
            intro x hx
            rcases List.mem_cons.mp hx with hx | hx
            · subst hx; simp [NilSafe]
            · exact ih h x hx
        · simp only [findAuthorization, h1, if_false] at h
          intro x hx
          rcases List.mem_cons.mp hx with hx | hx
          · subst hx
            refine ⟨by simp, ?_⟩
            intro hacc
            exact absurd (Option.some.inj hacc).symm h1
          · exact ih h x hx

theorem read_malformed {σ : Type} (conn : Conn σ) (d : ResourceData) (s : σ)
    (h : colons d.Id ≠ 1) :
    resourceAwsConfigAuthorizationRead conn d s = ⟨.error malformedIDError, d, s, []⟩ := by
  simp [resourceAwsConfigAuthorizationRead, parseID_malformed d.Id h]

theorem delete_malformed {σ : Type} (conn : Conn σ) (d : ResourceData) (s : σ)
    (h : colons d.Id ≠ 1) :
    resourceAwsConfigAuthorizationDelete conn d s = ⟨.error malformedIDError, d, s, []⟩ := by
  simp [resourceAwsConfigAuthorizationDelete, parseID_malformed d.Id h]

theorem read_parsed {σ : Type} (conn : Conn σ) (d : ResourceData) (s : σ) (a r : String)
    (h : resourceAwsConfigAuthorizationParseID d.Id = (a, r, none)) :
    resourceAwsConfigAuthorizationRead conn d s =
      match conn.DescribeAggregationAuthorizations s with
      | (.error err, s1) =>
        ⟨.error ("Error retrieving list of authorizations: " ++ err),
          { d with account_id := a, region := r }, s1, [.describe]⟩
      | (.ok res, s1) =>
        match findAuthorization a r res with
        | .found arn =>
          ⟨.ok, { d with account_id := a, region := r, arn := arn.getD "" }, s1, [.describe]⟩
        | .panic => ⟨.panic, { d with account_id := a, region := r }, s1, [.describe]⟩
        | .notFound => ⟨.ok, { d with account_id := a, region := r, Id := "" }, s1, [.describe]⟩ := by
  simp only [resourceAwsConfigAuthorizationRead, h]

theorem delete_parsed {σ : Type} (conn : Conn σ) (d : ResourceData) (s : σ) (a r : String)
    (h : resourceAwsConfigAuthorizationParseID d.Id = (a, r, none)) :
    resourceAwsConfigAuthorizationDelete conn d s =
      match conn.DeleteAggregationAuthorization s a r with
      | (some err, s1) =>
        ⟨.error ("Error deleting authorization: " ++ err), d, s1, [.delete a r]⟩
      | (none, s1) => ⟨.ok, { d with Id := "" }, s1, [.delete a r]⟩ := by
  simp only [resourceAwsConfigAuthorizationDelete, h]

theorem read_found {σ : Type} (conn : Conn σ) (d : ResourceData) (s s1 : σ) (a r : String)
    (l : List AggregationAuthorization) (arn : Option String)
    (hparse : resourceAwsConfigAuthorizationParseID d.Id = (a, r, none))
    (hlist : conn.DescribeAggregationAuthorizations s = (.ok l, s1))
    (hscan : findAuthorization a r l = .found arn) :
    resourceAwsConfigAuthorizationRead conn d s =
      ⟨.ok, { d with account_id := a, region := r, arn := arn.getD "" }, s1, [.describe]⟩ := by
  rw [read_parsed conn d s a r hparse, hlist]
  simp only [hscan]

theorem read_notFound {σ : Type} (conn : Conn σ) (d : ResourceData) (s s1 : σ) (a r : String)
    (l : List AggregationAuthorization)
    (hparse : resourceAwsConfigAuthorizationParseID d.Id = (a, r, none))
    (hlist : conn.DescribeAggregationAuthorizations s = (.ok l, s1))
    (hscan : findAuthorization a r l = .notFound) :
    resourceAwsConfigAuthorizationRead conn d s =
      ⟨.ok, { d with account_id := a, region := r, Id := "" }, s1, [.describe]⟩ := by
  rw [read_parsed conn d s a r hparse, hlist]
  simp only [hscan]

theorem read_panic {σ : Type} (conn : Conn σ) (d : ResourceData) (s s1 : σ) (a r : String)
    (l : List AggregationAuthorization)
    (hparse : resourceAwsConfigAuthorizationParseID d.Id = (a, r, none))
    (hlist : conn.DescribeAggregationAuthorizations s = (.ok l, s1))
    (hscan : findAuthorization a r l = .panic) :
    resourceAwsConfigAuthorizationRead conn d s =
      ⟨.panic, { d with account_id := a, region := r }, s1, [.describe]⟩ := by
  rw [read_parsed conn d s a r hparse, hlist]
  simp only [hscan]

theorem read_listError {σ : Type} (conn : Conn σ) (d : ResourceData) (s s1 : σ) (a r : String)
    (e : String)
    (hparse : resourceAwsConfigAuthorizationParseID d.Id = (a, r, none))
    (hlist : conn.DescribeAggregationAuthorizations s = (.error e, s1)) :
    resourceAwsConfigAuthorizationRead conn d s =
      ⟨.error ("Error retrieving list of authorizations: " ++ e),
        { d with account_id := a, region := r }, s1, [.describe]⟩ := by
  rw [read_parsed conn d s a r hparse, hlist]

theorem read_calls_parsed {σ : Type} (conn : Conn σ) (d : ResourceData) (s : σ) (a r : String)
    (hparse : resourceAwsConfigAuthorizationParseID d.Id = (a, r, none)) :
    (resourceAwsConfigAuthorizationRead conn d s).calls = [.describe] := by
  rw [read_parsed conn d s a r hparse]
  split
  · rfl
  · split <;> rfl

theorem put_succeeded {σ : Type} (conn : Conn σ) (d : ResourceData) (s s1 : σ)
    (hput : conn.PutAggregationAuthorization s d.account_id d.region = (none, s1)) :
    resourceAwsConfigAuthorizationPut conn d s =
      { resourceAwsConfigAuthorizationRead conn
          { d with Id := formatID d.account_id d.region } s1 with
        calls := .put d.account_id d.region ::
          (resourceAwsConfigAuthorizationRead conn
            { d with Id := formatID d.account_id d.region } s1).calls } := by
  simp only [resourceAwsConfigAuthorizationPut, hput]

theorem read_keeps_id_of_match {σ : Type} (conn : Conn σ) (d : ResourceData) (s s1 : σ)
    (a r : String) (l : List AggregationAuthorization)
    (hparse : resourceAwsConfigAuthorizationParseID d.Id = (a, r, none))
    (hlist : conn.DescribeAggregationAuthorizations s = (.ok l, s1))
    (hmatch : ∃ x ∈ l, Matches a r x) :
    (resourceAwsConfigAuthorizationRead conn d s).d.Id = d.Id := by
  cases hscan : findAuthorization a r l with
  | found arn => rw [read_found conn d s s1 a r l arn hparse hlist hscan]
  | panic => rw [read_panic conn d s s1 a r l hparse hlist hscan]
  | notFound =>
    obtain ⟨x, hx, hm⟩ := hmatch
    exact absurd hm (findAuthorization_notFound_noMatch a r l hscan x hx)

theorem find?_isSome_of_match (a r : String) (l : List AggregationAuthorization)
    (h : ∃ x ∈ l, Matches a r x) :
    ∃ e, l.find? (fun x => decide (Matches a r x)) = some e := by
  obtain ⟨x, hx, hm⟩ := h
  cases hf : l.find? (fun x => decide (Matches a r x)) with
  | some e => exact ⟨e, rfl⟩
  | none =>
    have := List.find?_eq_none.mp hf x hx
    simp [hm] at this

/-! ## Identifier round trip and parsing -/

/-- C1: for account id and region strings that contain no colon, parsing the identifier
that Create builds (account id, then a colon, then the region) succeeds and gives back
exactly the account id and the region. -/
theorem parseID_roundtrip (accountId region : String)
    (ha : ':' ∉ accountId.data) (hr : ':' ∉ region.data) :
    resourceAwsConfigAuthorizationParseID (formatID accountId region)
      = (accountId, region, none) :=
  parseID_formatID accountId region ha hr

theorem parseID_roundtrip_witness :
    ':' ∉ "123456789012".data ∧ ':' ∉ "us-west-2".data ∧
    formatID "123456789012" "us-west-2" = "123456789012:us-west-2" ∧
    resourceAwsConfigAuthorizationParseID (formatID "123456789012" "us-west-2")
      = ("123456789012", "us-west-2", none) :=
  ⟨by decide, by decide, by decide,
    parseID_roundtrip "123456789012" "us-west-2" (by decide) (by decide)⟩

/-- C2: the parser returns an error exactly when the identifier does not split on the colon
into exactly two parts, that is exactly when it does not contain exactly one colon; the
error comes with empty account id and region; with exactly one colon the parser returns the
text before the colon and the text after it, and no error. It parses
"123456789012:us-east-1" and rejects "bad-id". -/
theorem parseID_error_iff (id : String) :
    ((resourceAwsConfigAuthorizationParseID id).2.2 ≠ none ↔
      (stringsSplit id ':').length ≠ 2) ∧
    ((resourceAwsConfigAuthorizationParseID id).2.2 ≠ none ↔ colons id ≠ 1) ∧
    (colons id ≠ 1 →
      resourceAwsConfigAuthorizationParseID id = ("", "", some malformedIDError)) ∧
    (colons id = 1 →
      ∃ before after : String, id = before ++ ":" ++ after ∧
        ':' ∉ before.data ∧ ':' ∉ after.data ∧
        resourceAwsConfigAuthorizationParseID id = (before, after, none)) ∧
    resourceAwsConfigAuthorizationParseID "123456789012:us-east-1"
      = ("123456789012", "us-east-1", none) ∧
    resourceAwsConfigAuthorizationParseID "bad-id" = ("", "", some malformedIDError) := by
  have hone : colons id = 1 →
      ∃ before after : String, id = before ++ ":" ++ after ∧
        ':' ∉ before.data ∧ ':' ∉ after.data ∧
        resourceAwsConfigAuthorizationParseID id = (before, after, none) := by
    intro h
    obtain ⟨a, r, hid, ha, hr⟩ := exists_parts_of_one_colon id h
    exact ⟨a, r, hid, ha, hr, by rw [hid]; exact parseID_formatID a r ha hr⟩
  have hiff : (resourceAwsConfigAuthorizationParseID id).2.2 ≠ none ↔ colons id ≠ 1 := by
    constructor
    · intro herr hc
      obtain ⟨a, r, -, -, -, hp⟩ := hone hc
      rw [hp] at herr
      exact herr rfl
    · intro hc
      rw [parseID_malformed id hc]
      simp
  have hlen : (stringsSplit id ':').length ≠ 2 ↔ colons id ≠ 1 := by
    rw [stringsSplit_length]; unfold colons; omega
  exact ⟨hiff.trans hlen.symm, hiff, parseID_malformed id, hone, by decide, by decide⟩

/-! ## Read -/

/-- C3, as stated, fails: the listing contains an entry for the parsed account id and
region, but its first entry has a nil account id, which line 82 dereferences; Read does not
return and `arn` is not set. -/
theorem read_match_counterexample :
    resourceAwsConfigAuthorizationParseID sampleData.Id
      = ("123456789012", "us-east-1", none) ∧
    memConn.DescribeAggregationAuthorizations nilFirstListing
      = (.ok nilFirstListing, nilFirstListing) ∧
    (∃ x ∈ nilFirstListing, Matches "123456789012" "us-east-1" x) ∧
    nilFirstListing.find? (fun x => decide (Matches "123456789012" "us-east-1" x))
      = some ⟨some "arn:first", some "123456789012", some "us-east-1"⟩ ∧
    (resourceAwsConfigAuthorizationRead memConn sampleData nilFirstListing).ret = .panic ∧
    (resourceAwsConfigAuthorizationRead memConn sampleData nilFirstListing).ret ≠ .ok ∧
    (resourceAwsConfigAuthorizationRead memConn sampleData nilFirstListing).d.arn
      ≠ "arn:first" :=
  ⟨by decide, rfl, by decide, by decide, by decide, by decide, by decide⟩

/-- C3, amended: when the identifier parses to an account id and a region, the list call
succeeds, some entry of the list has that account id and that region, and every entry
before the first such entry has a non-nil account id and, if that account id equals the
parsed one, a non-nil region, then Read returns no error, issues the one list call, sets
`arn` to the ARN of the first such entry in list order (empty if that entry has none), and
leaves the identifier unchanged. -/
theorem read_match_sets_arn {σ : Type} (conn : Conn σ) (d : ResourceData) (s s1 : σ)
    (accountId region : String) (l : List AggregationAuthorization)
    (hparse : resourceAwsConfigAuthorizationParseID d.Id = (accountId, region, none))
    (hlist : conn.DescribeAggregationAuthorizations s = (.ok l, s1))
    (hmatch : ∃ x ∈ l, Matches accountId region x)
    (hsafe : ∀ x ∈ beforeFirstMatch accountId region l, NilSafe accountId x) :
    ∃ first, l.find? (fun x => decide (Matches accountId region x)) = some first ∧
      (resourceAwsConfigAuthorizationRead conn d s).ret = .ok ∧
      (resourceAwsConfigAuthorizationRead conn d s).d.arn
        = first.AggregationAuthorizationArn.getD "" ∧
      (∀ arn, first.AggregationAuthorizationArn = some arn →
        (resourceAwsConfigAuthorizationRead conn d s).d.arn = arn) ∧
      (resourceAwsConfigAuthorizationRead conn d s).d.Id = d.Id ∧
      (resourceAwsConfigAuthorizationRead conn d s).calls = [.describe] := by
  obtain ⟨e, he⟩ := find?_isSome_of_match accountId region l hmatch
  have hscan := findAuthorization_found accountId region l hsafe e he
  refine ⟨e, he, ?_⟩
  rw [read_found conn d s s1 accountId region l _ hparse hlist hscan]
  refine ⟨rfl, rfl, ?_, rfl, rfl⟩
  intro arn harn
  simp [harn]

theorem read_match_sets_arn_witness :
    (∃ first, sampleListing.find? (fun x => decide (Matches "123456789012" "us-east-1" x))
        = some first ∧
      (resourceAwsConfigAuthorizationRead memConn sampleData sampleListing).ret = .ok ∧
      (resourceAwsConfigAuthorizationRead memConn sampleData sampleListing).d.arn
        = first.AggregationAuthorizationArn.getD "" ∧
      (∀ arn, first.AggregationAuthorizationArn = some arn →
        (resourceAwsConfigAuthorizationRead memConn sampleData sampleListing).d.arn = arn) ∧
      (resourceAwsConfigAuthorizationRead memConn sampleData sampleListing).d.Id
        = sampleData.Id ∧
      (resourceAwsConfigAuthorizationRead memConn sampleData sampleListing).calls
        = [.describe]) ∧
    (resourceAwsConfigAuthorizationRead memConn sampleData sampleListing).d.arn = "arn:first" ∧
    (∃ first, sparseListing.find? (fun x => decide (Matches "123456789012" "us-east-1" x))
        = some first ∧
      (resourceAwsConfigAuthorizationRead memConn sampleData sparseListing).ret = .ok ∧
      (resourceAwsConfigAuthorizationRead memConn sampleData sparseListing).d.arn
        = first.AggregationAuthorizationArn.getD "" ∧
      (∀ arn, first.AggregationAuthorizationArn = some arn →
        (resourceAwsConfigAuthorizationRead memConn sampleData sparseListing).d.arn = arn) ∧
      (resourceAwsConfigAuthorizationRead memConn sampleData sparseListing).d.Id
        = sampleData.Id ∧
      (resourceAwsConfigAuthorizationRead memConn sampleData sparseListing).calls
        = [.describe]) :=
  ⟨read_match_sets_arn memConn sampleData sampleListing sampleListing
      "123456789012" "us-east-1" sampleListing (by decide) rfl (by decide) (by decide),
    by decide,
    read_match_sets_arn memConn sampleData sparseListing sparseListing
      "123456789012" "us-east-1" sparseListing (by decide) rfl (by decide) (by decide)⟩

/-- C4, as stated, fails: the listing has no entry for the parsed account id and region,
but its only entry has a nil account id, which line 82 dereferences; Read does not return
and the identifier is not cleared. -/
theorem read_drift_counterexample :
    resourceAwsConfigAuthorizationParseID sampleData.Id
      = ("123456789012", "us-east-1", none) ∧
    memConn.DescribeAggregationAuthorizations nilOnlyListing
      = (.ok nilOnlyListing, nilOnlyListing) ∧
    (∀ x ∈ nilOnlyListing, ¬ Matches "123456789012" "us-east-1" x) ∧
    (resourceAwsConfigAuthorizationRead memConn sampleData nilOnlyListing).ret = .panic ∧
    (resourceAwsConfigAuthorizationRead memConn sampleData nilOnlyListing).ret ≠ .ok ∧
    (resourceAwsConfigAuthorizationRead memConn sampleData nilOnlyListing).d.Id
      = "123456789012:us-east-1" ∧
    (resourceAwsConfigAuthorizationRead memConn sampleData nilOnlyListing).d.Id ≠ "" :=
  ⟨by decide, rfl, by decide, by decide, by decide, by decide, by decide⟩

/-- C4, amended: when the identifier parses to an account id and a region and the list call
succeeds with a list (possibly empty) in which no entry has both that account id and that
region, and every entry has a non-nil account id and, if that account id equals the parsed
one, a non-nil region, then Read clears the identifier, returns no error and has issued the
one list call. -/
theorem read_drift_clears_id {σ : Type} (conn : Conn σ) (d : ResourceData) (s s1 : σ)
    (accountId region : String) (l : List AggregationAuthorization)
    (hparse : resourceAwsConfigAuthorizationParseID d.Id = (accountId, region, none))
    (hlist : conn.DescribeAggregationAuthorizations s = (.ok l, s1))
    (hno : ∀ x ∈ l, ¬ Matches accountId region x)
    (hsafe : ∀ x ∈ l, NilSafe accountId x) :
    (resourceAwsConfigAuthorizationRead conn d s).ret = .ok ∧
      (resourceAwsConfigAuthorizationRead conn d s).d.Id = "" ∧
      (resourceAwsConfigAuthorizationRead conn d s).calls = [.describe] := by
  have hscan := findAuthorization_notFound accountId region l hsafe hno
  rw [read_notFound conn d s s1 accountId region l hparse hlist hscan]
  simp

theorem read_drift_clears_id_witness :
    ((resourceAwsConfigAuthorizationRead memConn sampleData []).ret = .ok ∧
      (resourceAwsConfigAuthorizationRead memConn sampleData []).d.Id = "" ∧
      (resourceAwsConfigAuthorizationRead memConn sampleData []).calls = [.describe]) ∧
    ((resourceAwsConfigAuthorizationRead memConn
        { sampleData with Id := "123456789012:eu-west-1" } sampleListing).ret = .ok ∧
      (resourceAwsConfigAuthorizationRead memConn
        { sampleData with Id := "123456789012:eu-west-1" } sampleListing).d.Id = "" ∧
      (resourceAwsConfigAuthorizationRead memConn
        { sampleData with Id := "123456789012:eu-west-1" } sampleListing).calls
          = [.describe]) ∧
    ((resourceAwsConfigAuthorizationRead memConn sampleData
        [⟨none, some "999999999999", none⟩]).ret = .ok ∧
      (resourceAwsConfigAuthorizationRead memConn sampleData
        [⟨none, some "999999999999", none⟩]).d.Id = "" ∧
      (resourceAwsConfigAuthorizationRead memConn sampleData
        [⟨none, some "999999999999", none⟩]).calls = [.describe]) :=
  ⟨read_drift_clears_id memConn sampleData [] [] "123456789012" "us-east-1" []
      (by decide) rfl (by decide) (by decide),
    read_drift_clears_id memConn { sampleData with Id := "123456789012:eu-west-1" }
      sampleListing sampleListing "123456789012" "eu-west-1" sampleListing
      (by decide) rfl (by decide) (by decide),
    read_drift_clears_id memConn sampleData [⟨none, some "999999999999", none⟩]
      [⟨none, some "999999999999", none⟩] "123456789012" "us-east-1"
      [⟨none, some "999999999999", none⟩] (by decide) rfl (by decide) (by decide)⟩

/-! ## Create -/

/-- C5, as stated, fails: with a colon in the region the put call succeeds and no list call
follows; and when the list that follows the put shows no entry for the pair, the identifier
ends up empty, not "123456789012:us-west-2". -/
theorem create_counterexample :
    ((memConn.PutAggregationAuthorization [] "123456789012" "us:west-2").1 = none ∧
      (resourceAwsConfigAuthorizationPut memConn (plannedData "123456789012" "us:west-2") []).calls
        = [.put "123456789012" "us:west-2"] ∧
      (resourceAwsConfigAuthorizationPut memConn (plannedData "123456789012" "us:west-2") []).calls
        ≠ [.put "123456789012" "us:west-2", .describe] ∧
      (resourceAwsConfigAuthorizationPut memConn (plannedData "123456789012" "us:west-2") []).ret
        = .error malformedIDError) ∧
    ((staleConn.PutAggregationAuthorization () "123456789012" "us-west-2").1 = none ∧
      (resourceAwsConfigAuthorizationPut staleConn (plannedData "123456789012" "us-west-2") ()).ret
        = .ok ∧
      (resourceAwsConfigAuthorizationPut staleConn (plannedData "123456789012" "us-west-2") ()).d.Id
        = "" ∧
      (resourceAwsConfigAuthorizationPut staleConn (plannedData "123456789012" "us-west-2") ()).d.Id
        ≠ "123456789012:us-west-2") := by
  decide

/-- C5, amended: for account id and region without a colon, when the put call succeeds,
Create issues exactly one put call followed by exactly one list call. The identifier it
leaves is "account_id:region" when the list call fails (the list error is returned) and
when the returned list has an entry for the pair (with no error and `arn` set from the
first such entry when the entries before it can be scanned without a nil dereference). When
the returned list has no entry for the pair and every entry has a non-nil account id and,
if that account id equals the given one, a non-nil region, the identifier is cleared and no
error is returned. -/
theorem create_put_then_read {σ : Type} (conn : Conn σ) (d : ResourceData) (s s1 : σ)
    (ha : ':' ∉ d.account_id.data) (hr : ':' ∉ d.region.data)
    (hput : conn.PutAggregationAuthorization s d.account_id d.region = (none, s1)) :
    (resourceAwsConfigAuthorizationPut conn d s).calls
      = [.put d.account_id d.region, .describe] ∧
    (∀ e s2, conn.DescribeAggregationAuthorizations s1 = (.error e, s2) →
      (resourceAwsConfigAuthorizationPut conn d s).ret
        = .error ("Error retrieving list of authorizations: " ++ e) ∧
      (resourceAwsConfigAuthorizationPut conn d s).d.Id
        = d.account_id ++ ":" ++ d.region) ∧
    (∀ l s2, conn.DescribeAggregationAuthorizations s1 = (.ok l, s2) →
      (∃ x ∈ l, Matches d.account_id d.region x) →
      (resourceAwsConfigAuthorizationPut conn d s).d.Id = d.account_id ++ ":" ++ d.region ∧
      ((∀ x ∈ beforeFirstMatch d.account_id d.region l, NilSafe d.account_id x) →
        (resourceAwsConfigAuthorizationPut conn d s).ret = .ok ∧
        ∃ first, l.find? (fun x => decide (Matches d.account_id d.region x)) = some first ∧
          (resourceAwsConfigAuthorizationPut conn d s).d.arn
            = first.AggregationAuthorizationArn.getD "")) ∧
    (∀ l s2, conn.DescribeAggregationAuthorizations s1 = (.ok l, s2) →
      (∀ x ∈ l, ¬ Matches d.account_id d.region x) →
      (∀ x ∈ l, NilSafe d.account_id x) →
      (resourceAwsConfigAuthorizationPut conn d s).ret = .ok ∧
      (resourceAwsConfigAuthorizationPut conn d s).d.Id = "") := by
  have hparse : resourceAwsConfigAuthorizationParseID
      ({ d with Id := formatID d.account_id d.region } : ResourceData).Id
        = (d.account_id, d.region, none) := parseID_formatID _ _ ha hr
  rw [put_succeeded conn d s s1 hput]
  refine ⟨?_, ?_, ?_, ?_⟩
  · simp [read_calls_parsed conn _ s1 _ _ hparse]
  · intro e s2 hlist
    rw [read_listError conn _ s1 s2 _ _ e hparse hlist]
    simp [formatID]
  · intro l s2 hlist hmatch
    refine ⟨?_, ?_⟩
    · have hid := read_keeps_id_of_match conn _ s1 s2 _ _ l hparse hlist hmatch
      simpa [formatID] using hid
    · intro hsafe
      obtain ⟨first, hfirst⟩ := find?_isSome_of_match _ _ l hmatch
      have hscan := findAuthorization_found _ _ l hsafe first hfirst
      rw [read_found conn _ s1 s2 _ _ l _ hparse hlist hscan]
      exact ⟨rfl, first, hfirst, rfl⟩
  · intro l s2 hlist hno hsafe
    have hscan := findAuthorization_notFound _ _ l hsafe hno
    rw [read_notFound conn _ s1 s2 _ _ l hparse hlist hscan]
    simp

theorem create_put_then_read_witness :
    ((resourceAwsConfigAuthorizationPut memConn (plannedData "123456789012" "us-west-2") []).calls
      = [.put "123456789012" "us-west-2", .describe] ∧
    (resourceAwsConfigAuthorizationPut memConn (plannedData "123456789012" "us-west-2") []).ret
      = .ok ∧
    (resourceAwsConfigAuthorizationPut memConn (plannedData "123456789012" "us-west-2") []).d.Id
      = "123456789012:us-west-2" ∧
    (resourceAwsConfigAuthorizationPut memConn (plannedData "123456789012" "us-west-2") []).d.arn
      = "arn:aws:config:us-west-2:123456789012") := by
  have h := create_put_then_read memConn (plannedData "123456789012" "us-west-2") []
    [⟨some "arn:aws:config:us-west-2:123456789012", some "123456789012", some "us-west-2"⟩]
    (by decide) (by decide) (by decide)
  obtain ⟨hcalls, -, hfound, -⟩ := h
  obtain ⟨hid, hrest⟩ := hfound _ _ rfl (by decide)
  obtain ⟨hret, -⟩ := hrest (by decide)
  exact ⟨hcalls, hret, hid, by decide⟩

/-! ## Delete -/

/-- C6: when the identifier parses to an account id and a region and the delete call
succeeds, Delete issues exactly one remote call, the delete call for exactly that account
id and region, clears the identifier, changes nothing else (whatever `arn` was) and returns
no error. -/
theorem delete_clears_id {σ : Type} (conn : Conn σ) (d : ResourceData) (s s1 : σ)
    (accountId region : String)
    (hparse : resourceAwsConfigAuthorizationParseID d.Id = (accountId, region, none))
    (hdel : conn.DeleteAggregationAuthorization s accountId region = (none, s1)) :
    (resourceAwsConfigAuthorizationDelete conn d s).calls = [.delete accountId region] ∧
    (resourceAwsConfigAuthorizationDelete conn d s).ret = .ok ∧
    (resourceAwsConfigAuthorizationDelete conn d s).d = { d with Id := "" } ∧
    (resourceAwsConfigAuthorizationDelete conn d s).d.Id = "" ∧
    (resourceAwsConfigAuthorizationDelete conn d s).remote = s1 := by
  rw [delete_parsed conn d s accountId region hparse, hdel]
  simp

theorem delete_clears_id_witness :
    (resourceAwsConfigAuthorizationDelete memConn
        { sampleData with arn := "arn:first" } sampleListing).calls
      = [.delete "123456789012" "us-east-1"] ∧
    (resourceAwsConfigAuthorizationDelete memConn
        { sampleData with arn := "arn:first" } sampleListing).ret = .ok ∧
    (resourceAwsConfigAuthorizationDelete memConn
        { sampleData with arn := "arn:first" } sampleListing).d
      = { sampleData with arn := "arn:first", Id := "" } ∧
    (resourceAwsConfigAuthorizationDelete memConn
        { sampleData with arn := "arn:first" } sampleListing).d.Id = "" ∧
    (resourceAwsConfigAuthorizationDelete memConn
        { sampleData with arn := "arn:first" } sampleListing).remote
      = [⟨some "arn:other", some "999999999999", some "us-east-1"⟩] :=
  delete_clears_id memConn { sampleData with arn := "arn:first" } sampleListing
    [⟨some "arn:other", some "999999999999", some "us-east-1"⟩]
    "123456789012" "us-east-1" (by decide) (by decide)

/-! ## Errors -/

/-- C7: a failed remote call ends the operation. When the put call fails, Create returns
"Error creating authorization: " followed by the underlying error, has issued only the put
call and leaves the resource data, identifier included, as it was (Read is not entered).
When the list call fails, Read returns "Error retrieving list of authorizations: " followed
by the underlying error, has issued only the list call and leaves the identifier as it was.
When the delete call fails, Delete returns "Error deleting authorization: " followed by the
underlying error, has issued only the delete call and leaves the identifier as it was. -/
theorem remote_error_terminal {σ : Type} (conn : Conn σ) (d : ResourceData) (s s1 : σ)
    (e : String) :
    (conn.PutAggregationAuthorization s d.account_id d.region = (some e, s1) →
      resourceAwsConfigAuthorizationPut conn d s
        = ⟨.error ("Error creating authorization: " ++ e), d, s1,
            [.put d.account_id d.region]⟩) ∧
    (∀ accountId region,
      resourceAwsConfigAuthorizationParseID d.Id = (accountId, region, none) →
      conn.DescribeAggregationAuthorizations s = (.error e, s1) →
      (resourceAwsConfigAuthorizationRead conn d s).ret
        = .error ("Error retrieving list of authorizations: " ++ e) ∧
      (resourceAwsConfigAuthorizationRead conn d s).calls = [.describe] ∧
      (resourceAwsConfigAuthorizationRead conn d s).d.Id = d.Id ∧
      (resourceAwsConfigAuthorizationRead conn d s).remote = s1) ∧
    (∀ accountId region,
      resourceAwsConfigAuthorizationParseID d.Id = (accountId, region, none) →
      conn.DeleteAggregationAuthorization s accountId region = (some e, s1) →
      resourceAwsConfigAuthorizationDelete conn d s
        = ⟨.error ("Error deleting authorization: " ++ e), d, s1,
            [.delete accountId region]⟩) := by
  refine ⟨?_, ?_, ?_⟩
  · intro hput
    simp only [resourceAwsConfigAuthorizationPut, hput]
  · intro a r hparse hlist
    rw [read_listError conn d s s1 a r e hparse hlist]
    simp
  · intro a r hparse hdel
    rw [delete_parsed conn d s a r hparse, hdel]

theorem remote_error_terminal_witness :
    resourceAwsConfigAuthorizationPut (downConn "timeout")
        (plannedData "123456789012" "us-west-2") ()
      = ⟨.error "Error creating authorization: timeout",
          plannedData "123456789012" "us-west-2", (),
          [.put "123456789012" "us-west-2"]⟩ ∧
    ((resourceAwsConfigAuthorizationRead (downConn "timeout") sampleData ()).ret
        = .error "Error retrieving list of authorizations: timeout" ∧
      (resourceAwsConfigAuthorizationRead (downConn "timeout") sampleData ()).calls
        = [.describe] ∧
      (resourceAwsConfigAuthorizationRead (downConn "timeout") sampleData ()).d.Id
        = "123456789012:us-east-1" ∧
      (resourceAwsConfigAuthorizationRead (downConn "timeout") sampleData ()).remote = ()) ∧
    resourceAwsConfigAuthorizationDelete (downConn "timeout") sampleData ()
      = ⟨.error "Error deleting authorization: timeout", sampleData, (),
          [.delete "123456789012" "us-east-1"]⟩ :=
  ⟨(remote_error_terminal (downConn "timeout")
      (plannedData "123456789012" "us-west-2") () () "timeout").1 rfl,
    (remote_error_terminal (downConn "timeout") sampleData () () "timeout").2.1
      "123456789012" "us-east-1" (by decide) rfl,
    (remote_error_terminal (downConn "timeout") sampleData () () "timeout").2.2
      "123456789012" "us-east-1" (by decide) rfl⟩

/-- C8: when the identifier does not split into exactly two colon-separated parts (the empty
identifier included), Read and Delete both return the error of the identifier parser, issue
no remote call, and leave the resource data (identifier, account id, region, arn) and the
remote state unchanged. -/
theorem malformed_id_rejected {σ : Type} (conn : Conn σ) (d : ResourceData) (s : σ)
    (hbad : (stringsSplit d.Id ':').length ≠ 2) :
    (resourceAwsConfigAuthorizationParseID d.Id).2.2 = some malformedIDError ∧
    resourceAwsConfigAuthorizationRead conn d s = ⟨.error malformedIDError, d, s, []⟩ ∧
    resourceAwsConfigAuthorizationDelete conn d s = ⟨.error malformedIDError, d, s, []⟩ := by
  have hc : colons d.Id ≠ 1 := by
    rw [stringsSplit_length] at hbad; unfold colons; omega
  exact ⟨by rw [parseID_malformed d.Id hc], read_malformed conn d s hc,
    delete_malformed conn d s hc⟩

theorem malformed_id_rejected_witness :
    ((stringsSplit "" ':').length ≠ 2 ∧
      (resourceAwsConfigAuthorizationParseID "").2.2 = some malformedIDError ∧
      resourceAwsConfigAuthorizationRead memConn ⟨"", "arn:first", "123456789012", "us-east-1"⟩
          sampleListing
        = ⟨.error malformedIDError, ⟨"", "arn:first", "123456789012", "us-east-1"⟩,
            sampleListing, []⟩ ∧
      resourceAwsConfigAuthorizationDelete memConn
          ⟨"", "arn:first", "123456789012", "us-east-1"⟩ sampleListing
        = ⟨.error malformedIDError, ⟨"", "arn:first", "123456789012", "us-east-1"⟩,
            sampleListing, []⟩) ∧
    ((stringsSplit "a:b:c" ':').length ≠ 2 ∧
      (resourceAwsConfigAuthorizationParseID "a:b:c").2.2 = some malformedIDError ∧
      resourceAwsConfigAuthorizationRead memConn ⟨"a:b:c", "", "", ""⟩ sampleListing
        = ⟨.error malformedIDError, ⟨"a:b:c", "", "", ""⟩, sampleListing, []⟩ ∧
      resourceAwsConfigAuthorizationDelete memConn ⟨"a:b:c", "", "", ""⟩ sampleListing
        = ⟨.error malformedIDError, ⟨"a:b:c", "", "", ""⟩, sampleListing, []⟩) :=
  ⟨⟨by decide, malformed_id_rejected memConn ⟨"", "arn:first", "123456789012", "us-east-1"⟩
      sampleListing (by decide)⟩,
    ⟨by decide, malformed_id_rejected memConn ⟨"a:b:c", "", "", ""⟩ sampleListing (by decide)⟩⟩

/-- C9: when the account id or the region contains a colon and the put call succeeds, Create
has issued the put call and no list call, has set the identifier to "account_id:region",
and returns the error of the identifier parser, which rejects the identifier left behind. -/
theorem create_colon_in_field {σ : Type} (conn : Conn σ) (d : ResourceData) (s s1 : σ)
    (hcolon : ':' ∈ d.account_id.data ∨ ':' ∈ d.region.data)
    (hput : conn.PutAggregationAuthorization s d.account_id d.region = (none, s1)) :
    resourceAwsConfigAuthorizationPut conn d s
      = ⟨.error malformedIDError, { d with Id := d.account_id ++ ":" ++ d.region }, s1,
          [.put d.account_id d.region]⟩ ∧
    resourceAwsConfigAuthorizationParseID (resourceAwsConfigAuthorizationPut conn d s).d.Id
      = ("", "", some malformedIDError) := by
  have hc : colons (formatID d.account_id d.region) ≠ 1 := by
    rw [colons_formatID]
    have : 0 < colons d.account_id ∨ 0 < colons d.region := by
      unfold colons
      rcases hcolon with h | h
      · exact Or.inl (List.count_pos_iff.mpr h)
      · exact Or.inr (List.count_pos_iff.mpr h)
    omega
  have hput2 : resourceAwsConfigAuthorizationPut conn d s
      = ⟨.error malformedIDError, { d with Id := d.account_id ++ ":" ++ d.region }, s1,
          [.put d.account_id d.region]⟩ := by
    rw [put_succeeded conn d s s1 hput,
      read_malformed conn { d with Id := formatID d.account_id d.region } s1 hc]
    rfl
  refine ⟨hput2, ?_⟩
  rw [hput2]
  exact parseID_malformed _ hc

theorem create_colon_in_field_witness :
    resourceAwsConfigAuthorizationPut memConn (plannedData "123456789012" "us:west-2") []
      = ⟨.error malformedIDError,
          { plannedData "123456789012" "us:west-2" with Id := "123456789012" ++ ":" ++ "us:west-2" },
          [⟨some "arn:aws:config:us:west-2:123456789012", some "123456789012",
            some "us:west-2"⟩],
          [.put "123456789012" "us:west-2"]⟩ ∧
    resourceAwsConfigAuthorizationParseID
        (resourceAwsConfigAuthorizationPut memConn
          (plannedData "123456789012" "us:west-2") []).d.Id
      = ("", "", some malformedIDError) :=
  create_colon_in_field memConn (plannedData "123456789012" "us:west-2") []
    [⟨some "arn:aws:config:us:west-2:123456789012", some "123456789012", some "us:west-2"⟩]
    (by decide) (by decide)

/-! ## Idempotence of Read -/

/-- C10: when the identifier is well formed and Read, against a remote that answers the
list `l`, returns no error and leaves the identifier non-empty, then Read on the resulting
resource data, against a remote that answers the same list, returns no error and yields the
same resource data (identifier, account id, region, arn); and in that resource data the
account id and region attributes are the two parts of the identifier. -/
theorem read_idempotent {σ : Type} (conn : Conn σ) (d : ResourceData) (s s1 t t1 : σ)
    (accountId region : String) (l : List AggregationAuthorization)
    (hparse : resourceAwsConfigAuthorizationParseID d.Id = (accountId, region, none))
    (hlist : conn.DescribeAggregationAuthorizations s = (.ok l, s1))
    (hagain : conn.DescribeAggregationAuthorizations t = (.ok l, t1))
    (hok : (resourceAwsConfigAuthorizationRead conn d s).ret = .ok)
    (hid : (resourceAwsConfigAuthorizationRead conn d s).d.Id ≠ "") :
    (resourceAwsConfigAuthorizationRead conn
        (resourceAwsConfigAuthorizationRead conn d s).d t).ret = .ok ∧
    (resourceAwsConfigAuthorizationRead conn
        (resourceAwsConfigAuthorizationRead conn d s).d t).d
      = (resourceAwsConfigAuthorizationRead conn d s).d ∧
    resourceAwsConfigAuthorizationParseID (resourceAwsConfigAuthorizationRead conn d s).d.Id
      = ((resourceAwsConfigAuthorizationRead conn d s).d.account_id,
          (resourceAwsConfigAuthorizationRead conn d s).d.region, none) := by
  cases hscan : findAuthorization accountId region l with
  | notFound =>
    rw [read_notFound conn d s s1 accountId region l hparse hlist hscan] at hid
    exact absurd rfl hid
  | panic =>
    rw [read_panic conn d s s1 accountId region l hparse hlist hscan] at hok
    simp at hok
  | found arn =>
    rw [read_found conn d s s1 accountId region l arn hparse hlist hscan]
    have hparse2 : resourceAwsConfigAuthorizationParseID
        ({ d with account_id := accountId, region := region, arn := arn.getD "" } :
          ResourceData).Id = (accountId, region, none) := hparse
    rw [read_found conn _ t t1 accountId region l arn hparse2 hagain hscan]
    exact ⟨rfl, rfl, hparse⟩

theorem read_idempotent_witness :
    (resourceAwsConfigAuthorizationRead memConn sampleData sampleListing).d
      = ⟨"123456789012:us-east-1", "arn:first", "123456789012", "us-east-1"⟩ ∧
    ((resourceAwsConfigAuthorizationRead memConn
        (resourceAwsConfigAuthorizationRead memConn sampleData sampleListing).d
          sampleListing).ret = .ok ∧
    (resourceAwsConfigAuthorizationRead memConn
        (resourceAwsConfigAuthorizationRead memConn sampleData sampleListing).d
          sampleListing).d
      = (resourceAwsConfigAuthorizationRead memConn sampleData sampleListing).d ∧
    resourceAwsConfigAuthorizationParseID
        (resourceAwsConfigAuthorizationRead memConn sampleData sampleListing).d.Id
      = ((resourceAwsConfigAuthorizationRead memConn sampleData sampleListing).d.account_id,
          (resourceAwsConfigAuthorizationRead memConn sampleData sampleListing).d.region,
          none)) :=
  ⟨by decide,
    read_idempotent memConn sampleData sampleListing sampleListing sampleListing sampleListing
      "123456789012" "us-east-1" sampleListing (by decide) rfl rfl (by decide) (by decide)⟩

end AwsConfigAuthorization
